import Mathlib

/-!
Verification of the goetl pipeline engine: a shallow embedding of the
layout validation, pipeline construction, start-signal injection, branch
wiring and the concurrent data-processor state machine, with theorems
checking the specification's claims against the embedded code.
-/

namespace Goetl

namespace Etldata

/-- Embedding of etldata.JSON: a payload is a byte string (type JSON []byte).
We model the bytes as a list of characters. -/
structure JSON where
  raw : List Char
deriving DecidableEq, Repr

/-- Embedding of JSON.Bytes: returns the underlying byte slice unchanged. -/
def JSON.Bytes (d : JSON) : List Char := d.raw

/-- Embedding of JSON.Clone: allocates a fresh byte slice of the same length
and copies the bytes, so the clone is value-equal to the original but
independently allocated. In the pure model the clone is the same value. -/
def JSON.Clone (d : JSON) : JSON := ⟨d.Bytes⟩

/-- Universe of values produced by json.Unmarshal when decoding into a bare
interface value: JSON null, booleans, numbers (float64, modeled opaquely by
an integer index since no claim inspects numeric values), strings, arrays
of values, and objects (maps from string keys to values, modeled as
association lists). -/
inductive GoValue where
  | vnull : GoValue
  | vbool (b : Bool) : GoValue
  | vnum (n : Int) : GoValue
  | vstr (s : List Char) : GoValue
  | varr (elems : List GoValue) : GoValue
  | vobj (fields : List (List Char × GoValue)) : GoValue

/-- Truth of a value being a Go map produced by decoding, i.e. whether the
type assertion o.(map\x7bstring\x7dinterface\x7b\x7d) succeeds on it. -/
def GoValue.isObj : GoValue → Bool
  | .vobj _ => true
  | _ => false

/-- Outcome of JSON.Objects: a normal return of the object slice with a nil
error, a non-nil error return (from Parse failing or from the unsupported
data type branch), or a run-time panic raised by the unchecked type
assertion on an array element. -/
inductive ObjectsResult where
  | ok (objs : List (List (List Char × GoValue))) : ObjectsResult
  | errParse : ObjectsResult
  | errUnsupported : ObjectsResult
  | panics : ObjectsResult

/-- Embedding of the loop in the []interface\x7b\x7d case of JSON.Objects:
append o.(map[string]interface\x7b\x7d) for each element in order; the
unchecked type assertion panics at the first element that is not a map. -/
def objectsOfSlice : List GoValue → ObjectsResult
  | [] => .ok []
  | .vobj fields :: rest =>
    match objectsOfSlice rest with
    | .ok objs => .ok (fields :: objs)
    | r => r
  | _ :: _ => .panics

/-- Embedding of JSON.Objects. The call json.Unmarshal (reached via d.Parse)
is Go standard-library code outside this repository; it is passed in as the
function parse, where none models a non-nil unmarshal error and some v the
decoded generic value. The source first compares the bytes against the
literal null, then parses, then switches on the dynamic type of the result.
The case []map[string]interface\x7b\x7d of the source switch is unreachable
from a bare interface decode (json.Unmarshal never produces it), and every
dynamic type other than array and map falls to the default error branch. -/
def JSON.Objects (parse : List Char → Option GoValue) (d : JSON) : ObjectsResult :=
  if d.raw = "null".data then .ok []
  else
    match parse d.raw with
    | none => .errParse
    | some v =>
      match v with
      | .varr elems => objectsOfSlice elems
      | .vobj fields => .ok [fields]
      | _ => .errUnsupported

end Etldata

/-! Layout model: processors, stages, and PipelineLayout validation,
from pipeline_stage.go and pipeline_layout.go. -/

/-- A user Processor. The engine only ever compares processors for identity
(Go interface equality) and renders them with the %v verb; we model a
processor as an identity tag together with its rendered name. -/
structure Processor where
  id : Nat
  name : List Char
deriving DecidableEq, Repr

/-- Embedding of the DataProcessor wrapper, restricted to the fields the
layout code reads: the wrapped Processor and the outputs slice. The outputs
field is a Go slice that is nil until Outputs is called; none models the
nil slice and some models a non-nil slice. -/
structure DataProcessor where
  proc : Processor
  outputs : Option (List Processor)
deriving DecidableEq, Repr

/-- Embedding of Do: wraps a Processor, leaving outputs nil. The channel
and concurrency fields initialized by Do are modeled separately by the
concurrent node state machine below. -/
def Do (processor : Processor) : DataProcessor :=
  { proc := processor, outputs := none }

/-- Embedding of DataProcessor.Outputs: sets the outputs slice. -/
def DataProcessor.Outputs (dp : DataProcessor) (processors : List Processor) : DataProcessor :=
  { dp with outputs := some processors }

/-- Embedding of PipelineStage: holds one or more wrapped processors. -/
structure PipelineStage where
  processors : List DataProcessor
deriving DecidableEq, Repr

/-- Embedding of NewPipelineStage. -/
def NewPipelineStage (processors : List DataProcessor) : PipelineStage :=
  { processors := processors }

/-- Embedding of PipelineStage.hasProcessor: linear scan comparing the
wrapped Processor interface values for equality. -/
def PipelineStage.hasProcessor (s : PipelineStage) (p : Processor) : Bool :=
  s.processors.any fun dp => decide (dp.proc = p)

/-- Embedding of PipelineStage.hasOutput: scans every processor's outputs
slice (ranging over a nil slice iterates zero times). -/
def PipelineStage.hasOutput (s : PipelineStage) (p : Processor) : Bool :=
  s.processors.any fun dp => (dp.outputs.getD []).any fun q => decide (q = p)

/-- Rendering of the fmt verb sequence Processor (%v) shared by all four
validation error messages; %v on a DataProcessor passes through to the
wrapped Processor's rendering. -/
def procTag (dp : DataProcessor) : List Char :=
  "Processor (".data ++ dp.proc.name ++ ")".data

/-- Message of the rule-1 violation (outputs set in the final stage). Note
the source text carries no stage number for this rule. -/
def msgOutputsFinal (dp : DataProcessor) : List Char :=
  procTag dp ++ " must have Outputs set in final PipelineStage".data

/-- Message of the rule-2 violation (outputs not set in a non-final stage);
n is the 1-indexed offending stage number. -/
def msgOutputsNonFinal (dp : DataProcessor) (n : Nat) : List Char :=
  procTag dp ++ " must have Outputs set in non-final PipelineStage ".data ++ '#' :: (Nat.repr n).data

/-- Message of the rule-3 violation (an output does not point into the next
stage); n is the 1-indexed number of the next stage. -/
def msgOutputsNext (dp : DataProcessor) (n : Nat) : List Char :=
  procTag dp ++ " Outputs must point to Processor in the next PipelineStage ".data ++ '#' :: (Nat.repr n).data

/-- Message of the rule-4 violation (a non-first-stage processor not pointed
to from the previous stage); n is the 1-indexed number of the previous
stage. -/
def msgNotPointedTo (dp : DataProcessor) (n : Nat) : List Char :=
  procTag dp ++ " is not pointed to by any output in the previous PipelineStage ".data ++ '#' :: (Nat.repr n).data

/-- Embedding of the first if/else-if pair of the validate loop body:
rule 1 (final stages must not have outputs set) and rule 2 (non-final
stages must have outputs set). -/
def rule12 (numStages stageNum : Nat) (dp : DataProcessor) : Option (List Char) :=
  if stageNum = numStages - 1 ∧ dp.outputs ≠ none then
    some (msgOutputsFinal dp)
  else if stageNum ≠ numStages - 1 ∧ dp.outputs = none then
    some (msgOutputsNonFinal dp (stageNum + 1))
  else
    none

/-- Embedding of the rule-3 check: every output of a non-last-stage
processor must be a processor of the immediately next stage; the source
returns on the first failing output, and the message does not depend on
which output failed. The get? is always within range when the guard holds
and numStages is the stage count. -/
def rule3 (stages : List PipelineStage) (numStages stageNum : Nat) (dp : DataProcessor) :
    Option (List Char) :=
  if stageNum < numStages - 1 then
    match stages.get? (stageNum + 1) with
    | some nextStage =>
      if (dp.outputs.getD []).all fun q => nextStage.hasProcessor q then none
      else some (msgOutputsNext dp (stageNum + 2))
    | none => none
  else
    none

/-- Embedding of the rule-4 check: a processor in a non-first stage must be
pointed to by an output of the previous stage. -/
def rule4 (stages : List PipelineStage) (stageNum : Nat) (dp : DataProcessor) :
    Option (List Char) :=
  if 0 < stageNum then
    match stages.get? (stageNum - 1) with
    | some prevStage =>
      if prevStage.hasOutput dp.proc then none else some (msgNotPointedTo dp stageNum)
    | none => none
  else
    none

/-- Validation of one processor: the loop body of validate, returning the
first error among the checks in source order. -/
def checkDP (stages : List PipelineStage) (numStages stageNum : Nat) (dp : DataProcessor) :
    Option (List Char) :=
  match rule12 numStages stageNum dp with
  | some e => some e
  | none =>
    match rule3 stages numStages stageNum dp with
    | some e => some e
    | none => rule4 stages stageNum dp

/-- Inner loop of validate over the processors of one stage, returning the
first error. -/
def checkProcessors (stages : List PipelineStage) (numStages stageNum : Nat) :
    List DataProcessor → Option (List Char)
  | [] => none
  | dp :: rest =>
    match checkDP stages numStages stageNum dp with
    | some e => some e
    | none => checkProcessors stages numStages stageNum rest

/-- Outer loop of validate over the stages, carrying the current index. -/
def checkStages (stages : List PipelineStage) (numStages : Nat) :
    Nat → List PipelineStage → Option (List Char)
  | _, [] => none
  | stageNum, s :: rest =>
    match checkProcessors stages numStages stageNum s.processors with
    | some e => some e
    | none => checkStages stages numStages (stageNum + 1) rest

/-- Embedding of PipelineLayout. -/
structure PipelineLayout where
  stages : List PipelineStage
deriving DecidableEq, Repr

/-- Embedding of PipelineLayout.validate: some message models a non-nil
error, none models a nil error. -/
def PipelineLayout.validate (l : PipelineLayout) : Option (List Char) :=
  checkStages l.stages l.stages.length 0 l.stages

/-- Embedding of NewPipelineLayout: wraps the stages and validates. -/
def NewPipelineLayout (stages : List PipelineStage) : Except (List Char) PipelineLayout :=
  let l : PipelineLayout := { stages := stages }
  match l.validate with
  | some e => .error e
  | none => .ok l

/-! Pipeline model, from pipeline.go. -/

/-- Embedding of the Pipeline struct fields read by the claims. The layout
field is a Go pointer that NewPipeline leaves nil when NewPipelineLayout
returns an error (the error is discarded); none models the nil pointer. -/
structure Pipeline where
  Name : List Char
  BufferLength : Nat
  PrintData : Bool
  layout : Option PipelineLayout
deriving DecidableEq, Repr

/-- The stage list built by the NewPipeline loop: processor i is wrapped by
Do, its outputs are set to the processor at i+1 when i is not the last
index, and each wrapper becomes a singleton stage. -/
def linearStages : List Processor → List PipelineStage
  | [] => []
  | [p] => [NewPipelineStage [Do p]]
  | p :: q :: rest => NewPipelineStage [(Do p).Outputs [q]] :: linearStages (q :: rest)

/-- Embedding of NewPipeline: a Pipeline composite literal setting only the
Name field, so BufferLength keeps the Go zero value 0 and PrintData keeps
false; the layout is the NewPipelineLayout result with its error
discarded. -/
def NewPipeline (processors : List Processor) : Pipeline :=
  { Name := "Pipeline".data
    BufferLength := 0
    PrintData := false
    layout := (NewPipelineLayout (linearStages processors)).toOption }

/-- Embedding of NewBranchingPipeline: sets only layout and Name, so
BufferLength again keeps the Go zero value 0. -/
def NewBranchingPipeline (layout : PipelineLayout) : Pipeline :=
  { Name := "Pipeline".data
    BufferLength := 0
    PrintData := false
    layout := some layout }

/-- A payload channel as allocated by make(chan etldata.Payload, n); the
observable modeled is its buffer capacity. -/
structure DataChan where
  capacity : Nat
deriving DecidableEq, Repr

/-- Embedding of Pipeline.initDataChan: allocates a payload channel whose
buffer capacity is the pipeline's BufferLength field. -/
def Pipeline.initDataChan (p : Pipeline) : DataChan :=
  { capacity := p.BufferLength }

/-- Embedding of the StartSignal package variable. -/
def StartSignal : List Char := "GO".data

/-- Observable actions performed by the first-stage loop of Pipeline.Run,
identifying each node of the first stage by its position in the stage:
sending a payload on the node's inputChan, invoking the node's Finish with
its outputChan and the kill channel, and closing the node's inputChan. -/
inductive RunEvent where
  | sendStart (node : Nat) (payload : Etldata.JSON) : RunEvent
  | callFinish (node : Nat) : RunEvent
  | closeInput (node : Nat) : RunEvent
deriving DecidableEq, Repr

/-- The event sequence of the loop over p.layout.stages[0].processors in
Pipeline.Run: per node in stage order, send etldata.JSON(StartSignal) on
its inputChan, call its Finish, close its inputChan. -/
def startInjectionEvents (idx : Nat) : List DataProcessor → List RunEvent
  | [] => []
  | _ :: rest =>
    .sendStart idx ⟨StartSignal⟩ :: .callFinish idx :: .closeInput idx ::
      startInjectionEvents (idx + 1) rest

/-- Embedding of the start-signal injection phase of Pipeline.Run. The
phases before it (timer start, kill-channel allocation, connectStages,
runStages) perform no observable action on a pipeline before data flows
and cannot panic when the stage list is empty, so the first point at which
Run dereferences the layout is the expression p.layout.stages[0]. A nil
layout pointer or an empty stage slice makes that expression panic at run
time; none models the panic, and some tr models normal completion of the
loop with event trace tr. -/
def Pipeline.runStartInjection (p : Pipeline) : Option (List RunEvent) :=
  match p.layout with
  | none => none
  | some l =>
    match l.stages with
    | [] => none
    | s :: _ => some (startInjectionEvents 0 s.processors)

/-! Branch wiring model, from DataProcessor.branchOut in data_processor.go. -/

/-- Observable actions of the branch goroutine: sending a payload on the
branch-out channel with the given index in declared downstream order,
recording bytes-sent statistics for one original payload, and closing a
branch-out channel. -/
inductive BranchEvent where
  | send (chanIdx : Nat) (payload : Etldata.JSON) : BranchEvent
  | recordSent (bytes : List Char) : BranchEvent
  | closeOut (chanIdx : Nat) : BranchEvent
deriving DecidableEq, Repr

/-- Embedding of the branch goroutine body for a node with k branch-out
channels: for every payload d received from outputChan, send d.Clone() to
each branch-out channel in declared order, then record bytes-sent
statistics from d.Bytes(); when outputChan closes, close every branch-out
channel. The payloads argument is the full sequence the node emits on
outputChan before closing it. -/
def branchOutEvents (k : Nat) : List Etldata.JSON → List BranchEvent
  | [] => (List.range k).map .closeOut
  | d :: rest =>
    ((List.range k).map fun j => .send j d.Clone) ++
      .recordSent d.Bytes :: branchOutEvents k rest

/-- Embedding of the executionStat counters touched by the claims. -/
structure ExecutionStat where
  dataSentCounter : Nat
  totalBytesSent : Nat
deriving DecidableEq, Repr

/-- Embedding of executionStat.recordDataSent: increments the payload
counter by one and the byte total by the length of the byte slice. -/
def recordDataSent (s : ExecutionStat) (b : List Char) : ExecutionStat :=
  { s with dataSentCounter := s.dataSentCounter + 1
           totalBytesSent := s.totalBytesSent + b.length }

/-- Payloads sent on branch-out channel j, in order, by a branch event
trace. -/
def sendsTo (j : Nat) : List BranchEvent → List Etldata.JSON
  | [] => []
  | .send c p :: rest => if c = j then p :: sendsTo j rest else sendsTo j rest
  | _ :: rest => sendsTo j rest

/-- Byte slices passed to recordDataSent, in order, by a branch event
trace. -/
def recordsOf : List BranchEvent → List (List Char)
  | [] => []
  | .recordSent b :: rest => b :: recordsOf rest
  | _ :: rest => recordsOf rest

/-- Truth of an event being a channel close. -/
def BranchEvent.isClose : BranchEvent → Bool
  | .closeOut _ => true
  | _ => false

/-! Concurrent node model, from concurrent_data_processor.go and the
concurrentProcessor fields initialized in Do (data_processor.go). -/

/-- Embedding of the result struct pushed on the workList: done is set when
the work goroutine signals completion, data accumulates the payloads the
processor sent on its private result channel, openFlag is the open field
(it stays true because processors do not close the channel handed to
ProcessData), and inputIdx records which accepted input the slot belongs
to (ghost data used to state ordering). -/
structure WorkResult where
  done : Bool
  data : List Etldata.JSON
  openFlag : Bool
  inputIdx : Nat
deriving DecidableEq, Repr

/-- State of one concurrent DataProcessor: accepted counts the inputs the
driver has taken from inputChan (inputs are identified 0, 1, … in arrival
order), throttle counts the occupied workThrottle slots, pendingEnqueue
holds inputs whose capture goroutine has been spawned but has not yet
pushed its result slot onto the workList, workList is the slot queue,
emitted lists the payloads sendResults has sent on outputChan (oldest
first), inputClosed is the concurrentProcessor flag of that name, and
doneChanSends counts sends performed on doneChan. -/
structure NodeState where
  accepted : Nat
  throttle : Nat
  pendingEnqueue : List Nat
  workList : List WorkResult
  emitted : List Etldata.JSON
  inputClosed : Bool
  doneChanSends : Nat
deriving DecidableEq, Repr

/-- State installed by Do for a concurrent processor: empty work list, no
work in flight, inputClosed set to false. -/
def NodeState.init : NodeState :=
  { accepted := 0, throttle := 0, pendingEnqueue := [], workList := [],
    emitted := [], inputClosed := false, doneChanSends := 0 }

/-- The while loop of sendResults: walk the workList from the front while
the head slot is done, removing it and emitting its buffered data in
order; stop at the first not-done slot. Returns the emitted payloads and
the remaining list. The close(outputChan) branch for a slot whose open
flag is false is not modeled as an event because openFlag stays true. -/
def flushWorkList : List WorkResult → List Etldata.JSON × List WorkResult
  | [] => ([], [])
  | r :: rest =>
    if r.done then
      let (ds, rem) := flushWorkList rest
      (r.data ++ ds, rem)
    else
      ([], r :: rest)

/-- Embedding of sendResults: flush the workList from the head under the
lock, then, if inputClosed is set and the workList emptied, send on
doneChan. -/
def sendResults (s : NodeState) : NodeState :=
  let (ds, rem) := flushWorkList s.workList
  let s' : NodeState := { s with workList := rem, emitted := s.emitted ++ ds }
  if s'.inputClosed ∧ s'.workList.length = 0 then
    { s' with doneChanSends := s'.doneChanSends + 1 }
  else
    s'

/-- Interleaving semantics of one concurrent DataProcessor with
concurrency C, where the processor call for input i sends the payload
sequence producedBy i on its private result channel.

accept: the driver goroutine receives the next input from inputChan and
calls processData, which blocks acquiring a workThrottle slot (possible
only while fewer than C slots are occupied) and then spawns the capture
goroutine and the work goroutine; the capture goroutine has not run yet.

enqueue: the capture goroutine for input i starts running and pushes its
result slot on the back of the workList under the lock. The goroutines
spawned by successive processData calls are scheduled independently, so
any pending capture goroutine may be the one to run.

complete: the work goroutine for an enqueued input i finishes
ProcessData — by which time the capture goroutine has received every
payload ProcessData sent on the private channel, since each unbuffered
send completes only when received — and signals done; the capture
goroutine marks the slot done with its accumulated data, releases the
workThrottle slot, and calls sendResults. -/
inductive NodeStep (C : Nat) (producedBy : Nat → List Etldata.JSON) :
    NodeState → NodeState → Prop where
  | accept (s : NodeState) (h : s.throttle < C) :
      NodeStep C producedBy s
        { s with accepted := s.accepted + 1
                 throttle := s.throttle + 1
                 pendingEnqueue := s.pendingEnqueue ++ [s.accepted] }
  | enqueue (s : NodeState) (i : Nat) (h : i ∈ s.pendingEnqueue) :
      NodeStep C producedBy s
        { s with pendingEnqueue := s.pendingEnqueue.erase i
                 workList := s.workList ++ [⟨false, [], true, i⟩] }
  | complete (s : NodeState) (i : Nat) (l₁ l₂ : List WorkResult)
      (h : s.workList = l₁ ++ ⟨false, [], true, i⟩ :: l₂) :
      NodeStep C producedBy s
        (sendResults
          { s with workList := l₁ ++ ⟨true, producedBy i, true, i⟩ :: l₂
                   throttle := s.throttle - 1 })

/-- States of the concurrent node reachable from the state Do installs. -/
def NodeReachable (C : Nat) (producedBy : Nat → List Etldata.JSON) (s : NodeState) : Prop :=
  Relation.ReflTransGen (NodeStep C producedBy) NodeState.init s

/-- Concrete per-input processor outputs used to exhibit a reordering:
input 0 produces the single payload a, input 1 the single payload b. -/
def producedTwo : Nat → List Etldata.JSON :=
  fun i => if i = 0 then [⟨"a".data⟩] else [⟨"b".data⟩]

/-- Final state of the reordering run: both inputs accepted (in order 0
then 1) and fully processed, all slots flushed, but the payload of input 1
emitted before the payload of input 0. -/
def reorderedFinal : NodeState :=
  { accepted := 2, throttle := 0, pendingEnqueue := [], workList := [],
    emitted := [⟨"b".data⟩, ⟨"a".data⟩], inputClosed := false, doneChanSends := 0 }

/-- A byte string occurs contiguously inside another. -/
def containsSeq (needle haystack : List Char) : Prop :=
  ∃ s t, haystack = s ++ needle ++ t

/-- A processor dp placed in stage stageNum (0-indexed) of the given stage
list violates one of the four layout rules: (1) it sits in the final stage
with outputs set; (2) it sits in a non-final stage with outputs unset;
(3) some of its outputs does not point to a processor of the immediately
next stage; (4) it sits in a non-first stage and no output of the previous
stage points to it. -/
def violatesAt (stages : List PipelineStage) (stageNum : Nat) (dp : DataProcessor) : Prop :=
  (stageNum = stages.length - 1 ∧ dp.outputs ≠ none) ∨
  (stageNum ≠ stages.length - 1 ∧ dp.outputs = none) ∨
  (stageNum < stages.length - 1 ∧
    ∃ nextStage, stages.get? (stageNum + 1) = some nextStage ∧
      ∃ q ∈ dp.outputs.getD [], nextStage.hasProcessor q = false) ∨
  (0 < stageNum ∧
    ∃ prevStage, stages.get? (stageNum - 1) = some prevStage ∧
      prevStage.hasOutput dp.proc = false)

/-- The error message produced for the processor dp at stage stageNum is
the template of the rule dp actually violates there, rendered with dp
itself; for rules 2-4 the message carries the relevant 1-indexed stage
number after a # sign (the offending stage for rule 2, the next stage for
rule 3, the previous stage for rule 4 — equal to stageNum of the offending
stage since stageNum is its 0-indexed position), while the rule-1 template
names the final stage only in words. -/
def ruleMessageAt (stages : List PipelineStage) (stageNum : Nat) (dp : DataProcessor)
    (msg : List Char) : Prop :=
  (stageNum = stages.length - 1 ∧ dp.outputs ≠ none ∧
    msg = msgOutputsFinal dp) ∨
  (stageNum ≠ stages.length - 1 ∧ dp.outputs = none ∧
    msg = msgOutputsNonFinal dp (stageNum + 1) ∧
    containsSeq ('#' :: (Nat.repr (stageNum + 1)).data) msg) ∨
  (stageNum < stages.length - 1 ∧
    (∃ nextStage, stages.get? (stageNum + 1) = some nextStage ∧
      ∃ q ∈ dp.outputs.getD [], nextStage.hasProcessor q = false) ∧
    msg = msgOutputsNext dp (stageNum + 2) ∧
    containsSeq ('#' :: (Nat.repr (stageNum + 2)).data) msg) ∨
  (0 < stageNum ∧
    (∃ prevStage, stages.get? (stageNum - 1) = some prevStage ∧
      prevStage.hasOutput dp.proc = false) ∧
    msg = msgNotPointedTo dp stageNum ∧
    containsSeq ('#' :: (Nat.repr stageNum).data) msg)

/-- The message reports the first violation of the layout in source
traversal order: there is an offending processor dp, located at position i
of stage stageNum, whose rendered name occurs in the message; the message
is the violated rule's template applied to dp and the rule-relevant
1-indexed stage number; every processor of every earlier stage satisfies
all four rules, and so does every earlier processor of the same stage. -/
def firstViolationMessage (stages : List PipelineStage) (msg : List Char) : Prop :=
  ∃ stageNum s i dp,
    stages.get? stageNum = some s ∧
    s.processors.get? i = some dp ∧
    containsSeq (procTag dp) msg ∧
    ruleMessageAt stages stageNum dp msg ∧
    (∀ k s' dp', k < stageNum → stages.get? k = some s' → dp' ∈ s'.processors →
      ¬ violatesAt stages k dp') ∧
    (∀ i' dp', i' < i → s.processors.get? i' = some dp' →
      ¬ violatesAt stages stageNum dp')

/-! Theorems. -/

/-- C2 counterexample: NewPipelineLayout applied to zero stages does not
return an error; it returns the empty layout, because the validate loop
body never executes. This refutes the claim that empty layouts are
rejected at construction. -/
theorem newPipelineLayout_empty_ok :
    NewPipelineLayout [] = Except.ok { stages := [] } := rfl

/-- C2 (amended): NewPipelineLayout applied to an empty sequence of stages
succeeds, returning the zero-stage layout with a nil validation error;
empty layouts are accepted at construction. -/
theorem newPipelineLayout_empty_accepted :
    NewPipelineLayout [] = Except.ok { stages := [] } ∧
      PipelineLayout.validate { stages := [] } = none :=
  ⟨rfl, rfl⟩

/-- C3: evaluation at the failing input. A pipeline built by NewPipeline or
NewBranchingPipeline without the caller setting BufferLength allocates its
wiring channels with buffer capacity 0 (the Go zero value), not the
documented default of 8: no code path ever assigns the default. -/
theorem initDataChan_capacity_zero_by_default :
    (NewPipeline [⟨0, "src".data⟩, ⟨1, "sink".data⟩]).initDataChan.capacity = 0 ∧
      (NewBranchingPipeline { stages := [] }).initDataChan.capacity = 0 ∧
      (NewPipeline [⟨0, "src".data⟩, ⟨1, "sink".data⟩]).initDataChan.capacity ≠ 8 :=
  ⟨rfl, rfl, by decide⟩

/-- C7: for the default JSON payload, Objects applied to a payload whose
bytes are the literal null returns the empty object sequence and a nil
error, whatever the unmarshaller would do: the null check precedes
parsing. -/
theorem objects_null_yields_empty :
    ∀ parse : List Char → Option Etldata.GoValue,
      Etldata.JSON.Objects parse ⟨"null".data⟩ = .ok [] := by
  intro parse
  rfl

/-- C8: Run requires a non-empty layout as an unstated precondition: on any
pipeline whose layout has zero stages, the start-injection phase of Run
panics indexing layout.stages[0] instead of returning a kill channel. -/
theorem run_panics_on_empty_layout :
    ∀ p : Pipeline, p.layout = some { stages := [] } →
      p.runStartInjection = none := by
  intro p h
  simp [Pipeline.runStartInjection, h]

/-- C8 witness: NewPipeline applied to zero processors constructs a
pipeline with a zero-stage layout (NewPipelineLayout accepts the empty
stage list), and Run's start injection panics on it. -/
theorem run_panics_on_empty_layout_witness :
    (NewPipeline []).layout = some { stages := [] } ∧
      (NewPipeline []).runStartInjection = none :=
  ⟨rfl, run_panics_on_empty_layout (NewPipeline []) rfl⟩

/-- Helper: the array loop of Objects panics whenever some element fails
the map type assertion. -/
theorem objectsOfSlice_panics {elems : List Etldata.GoValue}
    (h : ∃ x ∈ elems, x.isObj = false) :
    Etldata.objectsOfSlice elems = .panics := by
  induction elems with
  | nil => simp at h
  | cons e rest ih =>
    obtain ⟨x, hx, hobj⟩ := h
    cases e with
    | vobj fields =>
      rcases List.mem_cons.mp hx with rfl | hmem
      · simp [Etldata.GoValue.isObj] at hobj
      · simp [Etldata.objectsOfSlice, ih ⟨x, hmem, hobj⟩]
    | vnull => rfl
    | vbool b => rfl
    | vnum n => rfl
    | vstr s => rfl
    | varr inner => rfl

/-- Helper: the array loop of Objects returns normally when every element
passes the map type assertion. -/
theorem objectsOfSlice_ok {elems : List Etldata.GoValue}
    (h : ∀ x ∈ elems, x.isObj = true) :
    ∃ objs, Etldata.objectsOfSlice elems = .ok objs := by
  induction elems with
  | nil => exact ⟨[], rfl⟩
  | cons e rest ih =>
    obtain ⟨objs, hobjs⟩ := ih fun x hx => h x (List.mem_cons_of_mem _ hx)
    have he := h e (List.mem_cons_self e rest)
    cases e with
    | vobj fields => exact ⟨fields :: objs, by simp [Etldata.objectsOfSlice, hobjs]⟩
    | vnull => simp [Etldata.GoValue.isObj] at he
    | vbool b => simp [Etldata.GoValue.isObj] at he
    | vnum n => simp [Etldata.GoValue.isObj] at he
    | vstr s => simp [Etldata.GoValue.isObj] at he
    | varr inner => simp [Etldata.GoValue.isObj] at he

/-- C9: for the default JSON payload, Objects on a payload (other than the
literal null) that decodes to a JSON array panics via the unchecked type
assertion as soon as some array element is not an object, and returns
normally exactly when every array element decodes to a key-to-value
mapping. -/
theorem objects_panics_on_nonobject_element :
    ∀ (parse : List Char → Option Etldata.GoValue) (d : Etldata.JSON)
      (elems : List Etldata.GoValue),
      d.raw ≠ "null".data →
      parse d.raw = some (.varr elems) →
      ((∃ x ∈ elems, x.isObj = false) → Etldata.JSON.Objects parse d = .panics) ∧
        ((∀ x ∈ elems, x.isObj = true) → ∃ objs, Etldata.JSON.Objects parse d = .ok objs) := by
  intro parse d elems hnull hparse
  have hred : Etldata.JSON.Objects parse d = Etldata.objectsOfSlice elems := by
    simp [Etldata.JSON.Objects, if_neg hnull, hparse]
  exact ⟨fun hex => hred.trans (objectsOfSlice_panics hex),
    fun hall => hred ▸ objectsOfSlice_ok hall⟩

/-- C9 witness: the payload with bytes [1] decodes to a one-element array
whose element is the number 1, not an object, and Objects panics on it. -/
theorem objects_panics_witness :
    Etldata.JSON.Objects
        (fun s => if s = "[1]".data then some (.varr [.vnum 1]) else none)
        ⟨"[1]".data⟩ = .panics :=
  (objects_panics_on_nonobject_element
      (fun s => if s = "[1]".data then some (.varr [.vnum 1]) else none)
      ⟨"[1]".data⟩ [.vnum 1] (by decide) (by simp)).1
    ⟨.vnum 1, by simp, rfl⟩

/-- Helper: sendResults leaves the inputClosed flag untouched and, when
that flag is false, performs no send on doneChan. -/
theorem sendResults_inputClosed_false (s : NodeState) (h : s.inputClosed = false) :
    (sendResults s).inputClosed = false ∧ (sendResults s).doneChanSends = s.doneChanSends := by
  unfold sendResults
  rcases hfl : flushWorkList s.workList with ⟨ds, rem⟩
  simp [hfl, h]

/-- C10: in every reachable state of a concurrent DataProcessor, the
inputClosed flag is still false — Do initializes it to false and no
operation ever assigns it — so the guard of the doneChan send in
sendResults never holds and no send on doneChan ever happens. -/
theorem inputClosed_always_false :
    ∀ (C : Nat) (f : Nat → List Etldata.JSON) (s : NodeState),
      NodeReachable C f s →
      s.inputClosed = false ∧ s.doneChanSends = 0 := by
  intro C f s h
  induction h with
  | refl => exact ⟨rfl, rfl⟩
  | @tail b c hab hbc ih =>
    cases hbc with
    | accept ht => exact ih
    | enqueue i hi => exact ih
    | complete i l₁ l₂ hw =>
      have h2 : (({ b with
          workList := l₁ ++ ⟨true, f i, true, i⟩ :: l₂,
          throttle := b.throttle - 1 } : NodeState)).inputClosed = false := ih.1
      have h3 := sendResults_inputClosed_false _ h2
      exact ⟨h3.1, h3.2.trans ih.2⟩

/-- C10 witness: the constructed state itself is reachable and satisfies
the invariant. -/
theorem inputClosed_always_false_witness :
    NodeState.init.inputClosed = false ∧ NodeState.init.doneChanSends = 0 :=
  inputClosed_always_false 1 (fun _ => []) NodeState.init Relation.ReflTransGen.refl

/-- Helper: the start-injection loop produces, for node j of the first
stage (0-indexed), the block send start payload, call Finish, close input,
in stage order. -/
theorem startInjectionEvents_blocks (ps : List DataProcessor) :
    ∀ idx, startInjectionEvents idx ps =
      ((List.range ps.length).map fun j =>
        [RunEvent.sendStart (idx + j) ⟨StartSignal⟩, RunEvent.callFinish (idx + j),
          RunEvent.closeInput (idx + j)]).flatten := by
  induction ps with
  | nil => intro idx; rfl
  | cons p rest ih =>
    intro idx
    rw [startInjectionEvents, ih (idx + 1), List.length_cons, List.range_succ_eq_map,
      List.map_cons, List.flatten_cons, List.map_map]
    have harith : ∀ j : Nat, idx + 1 + j = idx + (j + 1) := by omega
    simp [Function.comp_def, Nat.succ_eq_add_one, harith]

/-- C4: for every pipeline with a non-nil layout and a non-empty stage
list, the start phase of Run performs, for each node of the first stage in
stage order, exactly: send one payload whose bytes are the literal GO on
the node's inputChan, invoke the node's Finish (with its outputChan and
the kill channel), and close the node's inputChan. -/
theorem run_start_injection_order :
    ∀ (p : Pipeline) (l : PipelineLayout) (s : PipelineStage) (rest : List PipelineStage),
      p.layout = some l → l.stages = s :: rest →
      p.runStartInjection = some
        (((List.range s.processors.length).map fun j =>
          [RunEvent.sendStart j ⟨StartSignal⟩, RunEvent.callFinish j,
            RunEvent.closeInput j]).flatten) ∧
      (⟨StartSignal⟩ : Etldata.JSON).Bytes = ['G', 'O'] := by
  intro p l s rest hl hs
  refine ⟨?_, rfl⟩
  simp only [Pipeline.runStartInjection, hl, hs]
  rw [startInjectionEvents_blocks s.processors 0]
  simp

/-- C4 witness: the linear two-processor pipeline has a one-node first
stage; the start phase sends GO to it, calls its Finish, and closes its
input channel, in that order. -/
theorem run_start_injection_order_witness :
    (NewPipeline [⟨0, "src".data⟩, ⟨1, "sink".data⟩]).runStartInjection =
      some [RunEvent.sendStart 0 ⟨StartSignal⟩, RunEvent.callFinish 0,
        RunEvent.closeInput 0] ∧
      (⟨StartSignal⟩ : Etldata.JSON).Bytes = ['G', 'O'] :=
  run_start_injection_order (NewPipeline [⟨0, "src".data⟩, ⟨1, "sink".data⟩])
    { stages := [{ processors := [{ proc := ⟨0, "src".data⟩, outputs := some [⟨1, "sink".data⟩] }] },
                 { processors := [{ proc := ⟨1, "sink".data⟩, outputs := none }] }] }
    { processors := [{ proc := ⟨0, "src".data⟩, outputs := some [⟨1, "sink".data⟩] }] }
    [{ processors := [{ proc := ⟨1, "sink".data⟩, outputs := none }] }]
    rfl rfl

/-- Helper: sends extracted from a concatenated trace. -/
theorem sendsTo_append (j : Nat) (l₁ l₂ : List BranchEvent) :
    sendsTo j (l₁ ++ l₂) = sendsTo j l₁ ++ sendsTo j l₂ := by
  induction l₁ with
  | nil => rfl
  | cons e rest ih =>
    cases e with
    | send c p =>
      by_cases hc : c = j
      · simp [sendsTo, hc, ih]
      · simp [sendsTo, hc, ih]
    | recordSent b => simp [sendsTo, ih]
    | closeOut c => simp [sendsTo, ih]

/-- Helper: a block of sends to pairwise distinct channels delivers nothing
to a channel not in the block. -/
theorem sendsTo_map_send_not_mem (j : Nat) (p : Etldata.JSON) :
    ∀ l : List Nat, j ∉ l →
      sendsTo j (l.map fun c => BranchEvent.send c p) = [] := by
  intro l
  induction l with
  | nil => intro _; rfl
  | cons c rest ih =>
    intro hj
    have hcj : ¬ c = j := fun h => hj (h ▸ List.mem_cons_self c rest)
    simp [sendsTo, hcj, ih fun h => hj (List.mem_cons_of_mem c h)]

/-- Helper: a block of sends to pairwise distinct channels delivers the
payload exactly once to each channel in the block. -/
theorem sendsTo_map_send_mem (j : Nat) (p : Etldata.JSON) :
    ∀ l : List Nat, l.Nodup → j ∈ l →
      sendsTo j (l.map fun c => BranchEvent.send c p) = [p] := by
  intro l
  induction l with
  | nil => intro _ h; simp at h
  | cons c rest ih =>
    intro hnd hj
    by_cases hcj : c = j
    · subst hcj
      have hnotin : c ∉ rest := (List.nodup_cons.mp hnd).1
      simp [sendsTo, sendsTo_map_send_not_mem c p rest hnotin]
    · have hjrest : j ∈ rest := by
        rcases List.mem_cons.mp hj with h | h
        · exact absurd h.symm hcj
        · exact h
      simp [sendsTo, hcj, ih (List.nodup_cons.mp hnd).2 hjrest]

/-- Helper: close events deliver nothing. -/
theorem sendsTo_map_close (j : Nat) (l : List Nat) :
    sendsTo j (l.map BranchEvent.closeOut) = [] := by
  induction l with
  | nil => rfl
  | cons c rest ih => simp [sendsTo, ih]

/-- Helper: statistics records extracted from a concatenated trace. -/
theorem recordsOf_append (l₁ l₂ : List BranchEvent) :
    recordsOf (l₁ ++ l₂) = recordsOf l₁ ++ recordsOf l₂ := by
  induction l₁ with
  | nil => rfl
  | cons e rest ih =>
    cases e with
    | send c p => simp [recordsOf, ih]
    | recordSent b => simp [recordsOf, ih]
    | closeOut c => simp [recordsOf, ih]

/-- Helper: send blocks carry no statistics records. -/
theorem recordsOf_map_send (p : Etldata.JSON) (l : List Nat) :
    recordsOf (l.map fun c => BranchEvent.send c p) = [] := by
  induction l with
  | nil => rfl
  | cons c rest ih => simp [recordsOf, ih]

/-- Helper: close blocks carry no statistics records. -/
theorem recordsOf_map_close (l : List Nat) :
    recordsOf (l.map BranchEvent.closeOut) = [] := by
  induction l with
  | nil => rfl
  | cons c rest ih => simp [recordsOf, ih]

/-- Helper: the branch goroutine records bytes-sent statistics from the
original payload's bytes exactly once per payload, in order. -/
theorem recordsOf_branchOut (k : Nat) (ps : List Etldata.JSON) :
    recordsOf (branchOutEvents k ps) = ps.map Etldata.JSON.Bytes := by
  induction ps with
  | nil => simp [branchOutEvents, recordsOf_map_close]
  | cons d rest ih =>
    simp [branchOutEvents, recordsOf_append, recordsOf_map_send, recordsOf, ih]

/-- Helper: each branch-out channel receives the clone of every payload in
emission order. -/
theorem sendsTo_branchOut (k : Nat) (ps : List Etldata.JSON) (j : Nat) (hj : j < k) :
    sendsTo j (branchOutEvents k ps) = ps.map Etldata.JSON.Clone := by
  induction ps with
  | nil => simp [branchOutEvents, sendsTo_map_close]
  | cons d rest ih =>
    have hone := sendsTo_map_send_mem j d.Clone (List.range k)
      (List.nodup_range k) (List.mem_range.mpr hj)
    simp [branchOutEvents, sendsTo_append, hone, sendsTo, ih]

/-- Helper: folding recordDataSent over the recorded byte slices adds one
to the payload counter per record and the byte lengths to the byte
total. -/
theorem foldl_recordDataSent (bs : List (List Char)) :
    ∀ s : ExecutionStat,
      (bs.foldl recordDataSent s).dataSentCounter = s.dataSentCounter + bs.length ∧
        (bs.foldl recordDataSent s).totalBytesSent =
          s.totalBytesSent + (bs.map List.length).sum := by
  induction bs with
  | nil => intro s; simp
  | cons b rest ih =>
    intro s
    have h := ih (recordDataSent s b)
    refine ⟨?_, ?_⟩
    · rw [List.foldl_cons, h.1]
      simp [recordDataSent]
      omega
    · rw [List.foldl_cons, h.2]
      simp [recordDataSent]
      omega

/-- Helper: all channel closes happen after all sends and records. -/
theorem branchOut_closes_last (k : Nat) (ps : List Etldata.JSON) :
    ∃ t, branchOutEvents k ps = t ++ (List.range k).map BranchEvent.closeOut ∧
      ∀ e ∈ t, e.isClose = false := by
  induction ps with
  | nil => exact ⟨[], by simp [branchOutEvents], by simp⟩
  | cons d rest ih =>
    obtain ⟨t, ht, hcl⟩ := ih
    refine ⟨((List.range k).map fun j => .send j d.Clone) ++ .recordSent d.Bytes :: t, ?_, ?_⟩
    · simp [branchOutEvents, ht]
    · intro e he
      rcases List.mem_append.mp he with h | h
      · obtain ⟨j, _, rfl⟩ := List.mem_map.mp h
        rfl
      · rcases List.mem_cons.mp h with rfl | h
        · rfl
        · exact hcl e h

/-- C5: for a branching node with k downstream targets and emitted payload
sequence ps, the branch goroutine sends the clone of each payload to every
branch-out channel in declared order (channel j receives the cloned
payloads in emission order), records bytes-sent statistics from the
original payload's bytes exactly once per payload — so the counters grow
by the payload count and the summed byte lengths, independent of k — and
closes every branch-out channel only after the sends, once the node's
outputChan is exhausted. -/
theorem branchOut_clone_order_stats_close :
    ∀ (k : Nat) (ps : List Etldata.JSON) (j : Nat) (s : ExecutionStat),
      j < k →
      sendsTo j (branchOutEvents k ps) = ps.map Etldata.JSON.Clone ∧
        recordsOf (branchOutEvents k ps) = ps.map Etldata.JSON.Bytes ∧
        ((recordsOf (branchOutEvents k ps)).foldl recordDataSent s).dataSentCounter =
          s.dataSentCounter + ps.length ∧
        ((recordsOf (branchOutEvents k ps)).foldl recordDataSent s).totalBytesSent =
          s.totalBytesSent + (ps.map fun d => d.Bytes.length).sum ∧
        ∃ t, branchOutEvents k ps = t ++ (List.range k).map BranchEvent.closeOut ∧
          ∀ e ∈ t, e.isClose = false := by
  intro k ps j s hj
  have hrec := recordsOf_branchOut k ps
  have hfold := foldl_recordDataSent (recordsOf (branchOutEvents k ps)) s
  refine ⟨sendsTo_branchOut k ps j hj, hrec, ?_, ?_, branchOut_closes_last k ps⟩
  · rw [hfold.1, hrec]
    simp
  · rw [hfold.2, hrec]
    simp [List.map_map, Function.comp_def]

/-- C5 witness: two downstream targets and two payloads; channel 1 receives
both clones in order, two records totalling three bytes are made, and the
closes come last. -/
theorem branchOut_clone_order_stats_close_witness :
    sendsTo 1 (branchOutEvents 2 [⟨"ab".data⟩, ⟨"c".data⟩]) =
        [⟨"ab".data⟩, ⟨"c".data⟩].map Etldata.JSON.Clone ∧
      recordsOf (branchOutEvents 2 [⟨"ab".data⟩, ⟨"c".data⟩]) =
        [⟨"ab".data⟩, ⟨"c".data⟩].map Etldata.JSON.Bytes ∧
      ((recordsOf (branchOutEvents 2 [⟨"ab".data⟩, ⟨"c".data⟩])).foldl recordDataSent
          ⟨0, 0⟩).dataSentCounter = (⟨0, 0⟩ : ExecutionStat).dataSentCounter + 2 ∧
      ((recordsOf (branchOutEvents 2 [⟨"ab".data⟩, ⟨"c".data⟩])).foldl recordDataSent
          ⟨0, 0⟩).totalBytesSent = (⟨0, 0⟩ : ExecutionStat).totalBytesSent +
            ([⟨"ab".data⟩, ⟨"c".data⟩].map fun d => (Etldata.JSON.Bytes d).length).sum ∧
      ∃ t, branchOutEvents 2 [⟨"ab".data⟩, ⟨"c".data⟩] =
          t ++ (List.range 2).map BranchEvent.closeOut ∧
        ∀ e ∈ t, e.isClose = false :=
  branchOut_clone_order_stats_close 2 [⟨"ab".data⟩, ⟨"c".data⟩] 1 ⟨0, 0⟩ (by decide)

/-- Helper: when the per-processor check emits a message for dp at stage
stageNum, dp actually violates the reported rule there, the message is
that rule's template rendered with dp and the rule-relevant 1-indexed
stage number, and dp's rendered name occurs in the message. -/
theorem checkDP_some_sound {stages : List PipelineStage} {stageNum : Nat}
    {dp : DataProcessor} {msg : List Char}
    (h : checkDP stages stages.length stageNum dp = some msg) :
    containsSeq (procTag dp) msg ∧ ruleMessageAt stages stageNum dp msg := by
  unfold checkDP at h
  split at h
  · rename_i e h12
    cases h
    unfold rule12 at h12
    split at h12
    · rename_i hc
      cases h12
      exact ⟨⟨[], " must have Outputs set in final PipelineStage".data,
          by simp [msgOutputsFinal]⟩,
        Or.inl ⟨hc.1, hc.2, rfl⟩⟩
    · split at h12
      · rename_i hc
        cases h12
        exact ⟨⟨[], " must have Outputs set in non-final PipelineStage ".data ++
            '#' :: (Nat.repr (stageNum + 1)).data, by simp [msgOutputsNonFinal]⟩,
          Or.inr (Or.inl ⟨hc.1, hc.2, rfl,
            ⟨procTag dp ++ " must have Outputs set in non-final PipelineStage ".data, [],
              by simp [msgOutputsNonFinal]⟩⟩)⟩
      · cases h12
  · rename_i h12none
    split at h
    · rename_i e h3
      cases h
      unfold rule3 at h3
      split at h3
      · rename_i hlt
        split at h3
        · rename_i nextStage hget
          split at h3
          · cases h3
          · rename_i hall
            cases h3
            have hex : ∃ q ∈ dp.outputs.getD [], nextStage.hasProcessor q = false := by
              by_contra hno
              push_neg at hno
              apply hall
              rw [List.all_eq_true]
              intro q hq
              cases hpq : nextStage.hasProcessor q with
              | false => exact absurd hpq (hno q hq)
              | true => rfl
            exact ⟨⟨[], " Outputs must point to Processor in the next PipelineStage ".data ++
                '#' :: (Nat.repr (stageNum + 2)).data, by simp [msgOutputsNext]⟩,
              Or.inr (Or.inr (Or.inl ⟨hlt, ⟨nextStage, hget, hex⟩, rfl,
                ⟨procTag dp ++ " Outputs must point to Processor in the next PipelineStage ".data,
                  [], by simp [msgOutputsNext]⟩⟩))⟩
        · cases h3
      · cases h3
    · rename_i h3none
      unfold rule4 at h
      split at h
      · rename_i hpos
        split at h
        · rename_i prevStage hget
          split at h
          · cases h
          · rename_i hout
            cases h
            have hfalse : prevStage.hasOutput dp.proc = false := by
              cases hpo : prevStage.hasOutput dp.proc with
              | false => rfl
              | true => exact absurd hpo hout
            exact ⟨⟨[], " is not pointed to by any output in the previous PipelineStage ".data ++
                '#' :: (Nat.repr stageNum).data, by simp [msgNotPointedTo]⟩,
              Or.inr (Or.inr (Or.inr ⟨hpos, ⟨prevStage, hget, hfalse⟩, rfl,
                ⟨procTag dp ++
                  " is not pointed to by any output in the previous PipelineStage ".data,
                  [], by simp [msgNotPointedTo]⟩⟩))⟩
        · cases h
      · cases h

/-- Helper: when the per-processor check emits no message for dp at stage
stageNum, dp violates none of the four rules there. -/
theorem checkDP_none_sound {stages : List PipelineStage} {stageNum : Nat}
    {dp : DataProcessor}
    (h : checkDP stages stages.length stageNum dp = none) :
    ¬ violatesAt stages stageNum dp := by
  unfold checkDP at h
  split at h
  · cases h
  · rename_i h12
    split at h
    · cases h
    · rename_i h3
      intro hviol
      rcases hviol with h1 | h2 | hr3 | hr4
      · unfold rule12 at h12
        rw [if_pos h1] at h12
        cases h12
      · unfold rule12 at h12
        rw [if_neg fun hc => hc.2 h2.2, if_pos h2] at h12
        cases h12
      · obtain ⟨hlt, nextStage, hget, q, hq, hqfalse⟩ := hr3
        unfold rule3 at h3
        rw [if_pos hlt] at h3
        split at h3
        · rename_i ns hnseq
          rw [hget] at hnseq
          cases hnseq
          split at h3
          · rename_i hall
            have hqt := List.all_eq_true.mp hall q hq
            rw [hqfalse] at hqt
            cases hqt
          · cases h3
        · rename_i hnseq
          rw [hget] at hnseq
          cases hnseq
      · obtain ⟨hpos, prevStage, hget, hpo⟩ := hr4
        unfold rule4 at h
        rw [if_pos hpos] at h
        split at h
        · rename_i pv hpseq
          rw [hget] at hpseq
          cases hpseq
          split at h
          · rename_i hout
            rw [hpo] at hout
            cases hout
          · cases h
        · rename_i hpseq
          rw [hget] at hpseq
          cases hpseq

/-- Helper: when the inner validate loop emits a message, there is a first
offending processor in the stage: the check succeeds (returns nil) on
every processor before it. -/
theorem checkProcessors_first {stages : List PipelineStage} {stageNum : Nat} :
    ∀ {ps : List DataProcessor} {msg : List Char},
      checkProcessors stages stages.length stageNum ps = some msg →
      ∃ i dp, ps.get? i = some dp ∧
        checkDP stages stages.length stageNum dp = some msg ∧
        ∀ j dp', j < i → ps.get? j = some dp' →
          checkDP stages stages.length stageNum dp' = none := by
  intro ps
  induction ps with
  | nil => intro msg h; cases h
  | cons dp rest ih =>
    intro msg h
    unfold checkProcessors at h
    split at h
    · rename_i e hdp
      cases h
      exact ⟨0, dp, rfl, hdp, fun j dp' hj _ => absurd hj (Nat.not_lt_zero j)⟩
    · rename_i hdpnone
      obtain ⟨i, dpe, hget, hsome, hfirst⟩ := ih h
      refine ⟨i + 1, dpe, hget, hsome, ?_⟩
      intro j dpj hj hgetj
      cases j with
      | zero =>
        cases hgetj
        exact hdpnone
      | succ j =>
        exact hfirst j dpj (Nat.lt_of_succ_lt_succ hj) hgetj

/-- Helper: when the inner validate loop emits no message, the check
succeeds on every processor of the stage. -/
theorem checkProcessors_none {stages : List PipelineStage} {stageNum : Nat} :
    ∀ {ps : List DataProcessor},
      checkProcessors stages stages.length stageNum ps = none →
      ∀ dp ∈ ps, checkDP stages stages.length stageNum dp = none := by
  intro ps
  induction ps with
  | nil => intro _ dp hdp; cases hdp
  | cons p rest ih =>
    intro h dp hdp
    unfold checkProcessors at h
    split at h
    · cases h
    · rename_i hpnone
      rcases List.mem_cons.mp hdp with rfl | hmem
      · exact hpnone
      · exact ih h dp hmem

/-- Helper: when the outer validate loop emits a message while traversing
the suffix of the layout starting at stage k, there is a first offending
stage at or after k: the message comes from its processor check, and the
check of every stage in between returns nil. -/
theorem checkStages_first {stages : List PipelineStage} :
    ∀ {k : Nat} {rest : List PipelineStage} {msg : List Char},
      stages.drop k = rest →
      checkStages stages stages.length k rest = some msg →
      ∃ stageNum s, k ≤ stageNum ∧ stages.get? stageNum = some s ∧
        checkProcessors stages stages.length stageNum s.processors = some msg ∧
        ∀ j s', k ≤ j → j < stageNum → stages.get? j = some s' →
          checkProcessors stages stages.length j s'.processors = none := by
  intro k rest
  induction rest generalizing k with
  | nil => intro msg _ h; cases h
  | cons s srest ih =>
    intro msg hdrop h
    have hgetk : stages.get? k = some s := by
      have h0 := List.getElem?_drop stages k 0
      rw [hdrop] at h0
      rw [List.get?_eq_getElem?]
      simpa using h0.symm
    unfold checkStages at h
    split at h
    · rename_i e hs
      cases h
      exact ⟨k, s, le_refl k, hgetk, hs,
        fun j s' hj1 hj2 _ => absurd (lt_of_le_of_lt hj1 hj2) (lt_irrefl k)⟩
    · rename_i hsnone
      have hdropn : stages.drop (k + 1) = srest := by
        have hd := List.drop_drop 1 k stages
        rw [hdrop] at hd
        simpa [Nat.add_comm] using hd.symm
      obtain ⟨stageNum, st, hle, hget, hsome, hfirst⟩ := ih hdropn h
      refine ⟨stageNum, st, Nat.le_of_succ_le hle, hget, hsome, ?_⟩
      intro j s' hj1 hj2 hgetj
      rcases Nat.lt_or_ge j (k + 1) with hjk | hjk
      · have hjeq : j = k := Nat.le_antisymm (Nat.lt_succ_iff.mp hjk) hj1
        subst hjeq
        rw [hgetk] at hgetj
        cases hgetj
        exact hsnone
      · exact hfirst j s' hjk hj2 hgetj

/-- C6 counterexample: a single-stage layout whose only processor has
outputs set violates rule 1; NewPipelineLayout fails, but the error
message contains no digit at all, so it does not name the relevant stage
number (1), refuting the claim that every validation error names the
offending processor and a 1-indexed stage number. -/
theorem final_stage_error_lacks_stage_number :
    NewPipelineLayout [{ processors := [{ proc := ⟨0, "p".data⟩, outputs := some [] }] }] =
        Except.error (msgOutputsFinal { proc := ⟨0, "p".data⟩, outputs := some [] }) ∧
      (msgOutputsFinal { proc := ⟨0, "p".data⟩, outputs := some [] }).all
        (fun c => !c.isDigit) = true :=
  ⟨rfl, by decide⟩

/-- C6 (amended): a layout violating one of the four rules fails
construction with an error for the first violation in traversal order
(stage by stage, processor by processor: every earlier processor
satisfies all four rules); the message is the violated rule's template
rendered with the offending processor itself, so it always names the
offending processor, and for rules 2-4 it carries the rule-relevant
1-indexed stage number after a # sign (the offending stage for rule 2,
the next stage for rule 3, the previous stage for rule 4), while the
rule-1 message names the final stage only by the words final
PipelineStage, without a number. -/
theorem newPipelineLayout_error_names_offender :
    ∀ (stages : List PipelineStage) (msg : List Char),
      NewPipelineLayout stages = .error msg → firstViolationMessage stages msg := by
  intro stages msg h
  have hvalid : PipelineLayout.validate { stages := stages } = some msg := by
    unfold NewPipelineLayout at h
    cases hval : PipelineLayout.validate { stages := stages } with
    | none => simp [hval] at h
    | some e =>
      simp [hval] at h
      subst h
      rfl
  have hcs : checkStages stages stages.length 0 stages = some msg := hvalid
  obtain ⟨stageNum, s, _, hget, hsome, hstagefirst⟩ := checkStages_first rfl hcs
  obtain ⟨i, dp, hgetdp, hdpsome, hprocfirst⟩ := checkProcessors_first hsome
  obtain ⟨htag, hrule⟩ := checkDP_some_sound hdpsome
  refine ⟨stageNum, s, i, dp, hget, hgetdp, htag, hrule, ?_, ?_⟩
  · intro j sj dpj hj hgetj hdpj
    exact checkDP_none_sound
      (checkProcessors_none (hstagefirst j sj (Nat.zero_le j) hj hgetj) dpj hdpj)
  · intro j dpj hj hgetj
    exact checkDP_none_sound (hprocfirst j dpj hj hgetj)

/-- C6 witness: a two-stage layout whose first-stage processor has no
outputs triggers rule 2 as the first violation; the message is the rule-2
template naming that processor and the stage number 1. -/
theorem newPipelineLayout_error_names_offender_witness :
    firstViolationMessage
      [{ processors := [{ proc := ⟨0, "p".data⟩, outputs := none }] },
        { processors := [{ proc := ⟨1, "q".data⟩, outputs := none }] }]
      (msgOutputsNonFinal { proc := ⟨0, "p".data⟩, outputs := none } 1) :=
  newPipelineLayout_error_names_offender
    [{ processors := [{ proc := ⟨0, "p".data⟩, outputs := none }] },
      { processors := [{ proc := ⟨1, "q".data⟩, outputs := none }] }]
    (msgOutputsNonFinal { proc := ⟨0, "p".data⟩, outputs := none } 1) rfl

/-- C1: evaluation of the code at the failing schedule. With concurrency 2
and inputs accepted in order 0, 1, the capture goroutines spawned by
processData may be scheduled so that input 1's goroutine pushes its result
slot on the workList before input 0's goroutine does; sendResults then
flushes input 1's payload first, and the node's final emitted sequence is
b, a instead of the input-order concatenation a, b. The FIFO flush of
sendResults preserves workList order, but workList order is the capture
goroutines' scheduling order, not the order inputs were accepted, so the
claimed (and documented) ordering guarantee fails on this schedule. -/
theorem concurrent_output_order_violated :
    NodeReachable 2 producedTwo reorderedFinal ∧
      reorderedFinal.emitted ≠ producedTwo 0 ++ producedTwo 1 := by
  constructor
  · have h1 : NodeStep 2 producedTwo NodeState.init
        ⟨1, 1, [0], [], [], false, 0⟩ :=
      NodeStep.accept NodeState.init (by decide)
    have h2 : NodeStep 2 producedTwo ⟨1, 1, [0], [], [], false, 0⟩
        ⟨2, 2, [0, 1], [], [], false, 0⟩ :=
      NodeStep.accept ⟨1, 1, [0], [], [], false, 0⟩ (by decide)
    have h3 : NodeStep 2 producedTwo ⟨2, 2, [0, 1], [], [], false, 0⟩
        ⟨2, 2, [0], [⟨false, [], true, 1⟩], [], false, 0⟩ :=
      NodeStep.enqueue ⟨2, 2, [0, 1], [], [], false, 0⟩ 1 (by decide)
    have h4 : NodeStep 2 producedTwo ⟨2, 2, [0], [⟨false, [], true, 1⟩], [], false, 0⟩
        ⟨2, 2, [], [⟨false, [], true, 1⟩, ⟨false, [], true, 0⟩], [], false, 0⟩ :=
      NodeStep.enqueue ⟨2, 2, [0], [⟨false, [], true, 1⟩], [], false, 0⟩ 0 (by decide)
    have h5 : NodeStep 2 producedTwo
        ⟨2, 2, [], [⟨false, [], true, 1⟩, ⟨false, [], true, 0⟩], [], false, 0⟩
        ⟨2, 1, [], [⟨false, [], true, 0⟩], [⟨"b".data⟩], false, 0⟩ :=
      NodeStep.complete
        ⟨2, 2, [], [⟨false, [], true, 1⟩, ⟨false, [], true, 0⟩], [], false, 0⟩
        1 [] [⟨false, [], true, 0⟩] rfl
    have h6 : NodeStep 2 producedTwo
        ⟨2, 1, [], [⟨false, [], true, 0⟩], [⟨"b".data⟩], false, 0⟩
        reorderedFinal :=
      NodeStep.complete
        ⟨2, 1, [], [⟨false, [], true, 0⟩], [⟨"b".data⟩], false, 0⟩
        0 [] [] rfl
    exact Relation.ReflTransGen.tail
      (Relation.ReflTransGen.tail
        (Relation.ReflTransGen.tail
          (Relation.ReflTransGen.tail
            (Relation.ReflTransGen.tail (Relation.ReflTransGen.single h1) h2) h3) h4) h5) h6
  · decide

end Goetl
